import Mathlib

/-! Verification development for the Go cheat-sheet (`algo/cheatsheet.go`,
`algo/types/types.go`).

Shallow embedding conventions.

* A Go `string` is an immutable sequence of bytes: `GoString = List Nat`, every element
  being a byte value.  Source literals are embedded through `lit`, the UTF-8 encoding of
  the literal text.
* Go `int` is the 64-bit two's-complement integer; values are `Int`s in
  `[-2^63, 2^63)` and results are normalised with `wrapInt`.
* `byte` is `uint8` (a `Nat` below 256) and `rune` is `int32` (an `Int` in
  `[-2^31, 2^31)`).
* A demonstration function that only prints is embedded as the list of effects
  (`Event`s) it performs, in order; `stdout` renders the console text of such a list.
-/

namespace Algo

/-! ## Strings -/

/-- Go strings are byte sequences. -/
abbrev GoString := List Nat

/-- UTF-8 encoding of a code point, as Go does for `string(r)` and for the characters
of a source literal.  Surrogates and values above U+10FFFF become U+FFFD. -/
def encodeRune (c : Nat) : List Nat :=
  if c < 0x80 then [c]
  else if c < 0x800 then [0xC0 + c / 64, 0x80 + c % 64]
  else if 0xD800 ≤ c ∧ c < 0xE000 then [0xEF, 0xBF, 0xBD]
  else if c < 0x10000 then [0xE0 + c / 4096, 0x80 + c / 64 % 64, 0x80 + c % 64]
  else if c < 0x110000 then
    [0xF0 + c / 262144, 0x80 + c / 4096 % 64, 0x80 + c / 64 % 64, 0x80 + c % 64]
  else [0xEF, 0xBF, 0xBD]

/-- The bytes of a source string literal. -/
def lit (s : String) : GoString :=
  s.data.flatMap fun c => encodeRune c.toNat

/-- Go `<` on strings: byte-wise lexicographic comparison, a proper prefix being smaller. -/
def stringLess : GoString → GoString → Bool
  | [], [] => false
  | [], _ :: _ => true
  | _ :: _, [] => false
  | a :: as, b :: bs =>
    if a < b then true else if b < a then false else stringLess as bs

/-- Go `+` on strings. -/
def concat (s t : GoString) : GoString := s ++ t

/-! ## Machine integers -/

/-- Normalise an integer to the 64-bit two's-complement range of Go `int`. -/
def wrapInt (a : Int) : Int :=
  (a + 9223372036854775808) % 18446744073709551616 - 9223372036854775808

/-- Values representable as a Go `int` (64 bits). -/
def isInt (a : Int) : Prop :=
  -9223372036854775808 ≤ a ∧ a ≤ 9223372036854775807

instance (a : Int) : Decidable (isInt a) := by
  unfold isInt; infer_instance

/-- Normalise an integer to the range of `rune` (`int32`). -/
def wrapRune (a : Int) : Int :=
  (a + 2147483648) % 4294967296 - 2147483648

/-- Values representable as a `rune`. -/
def isRune (r : Int) : Prop :=
  -2147483648 ≤ r ∧ r ≤ 2147483647

instance (r : Int) : Decidable (isRune r) := by
  unfold isRune; infer_instance

/-- Values representable as a `byte` (`uint8`). -/
def isByte (b : Nat) : Prop :=
  b < 256

instance (b : Nat) : Decidable (isByte b) := by
  unfold isByte; infer_instance

/-! ## Console values and effects -/

/-- An `error` value, identified by the text its `Error()` method returns. -/
structure GoError where
  msg : GoString
deriving DecidableEq, Repr

/-- Operands handed to `fmt.Println`. -/
inductive Value where
  | str (s : GoString)
  | strs (l : List GoString)
  | int (n : Int)
  | byte (b : Nat)
  | rune (r : Int)
  | bool (b : Bool)
  | err (e : Option GoError)
deriving DecidableEq, Repr

/-- Decimal digits of a natural number, most significant first (`fuel` bounds the
number of digits). -/
def digitsAux : Nat → Nat → List Nat → List Nat
  | 0, _, acc => acc
  | fuel + 1, n, acc =>
    if n < 10 then (48 + n) :: acc else digitsAux fuel (n / 10) ((48 + n % 10) :: acc)

/-- Decimal rendering of an integer, as `strconv.Itoa` and `%v` on an integer. -/
def itoa (n : Int) : GoString :=
  if n < 0 then 45 :: digitsAux (n.natAbs + 1) n.natAbs []
  else digitsAux (n.natAbs + 1) n.natAbs []

/-- Elements separated by `sep`, as `strings.Join(elems, sep)`. -/
def Join : List GoString → GoString → GoString
  | [], _ => []
  | [a], _ => a
  | a :: b :: rest, sep => a ++ sep ++ Join (b :: rest) sep

/-- Default (`%v`) rendering of an operand. -/
def Value.format : Value → GoString
  | .str s => s
  | .strs l => 91 :: Join l [32] ++ [93]
  | .int n => itoa n
  | .byte b => itoa b
  | .rune r => itoa r
  | .bool true => lit "true"
  | .bool false => lit "false"
  | .err (some e) => e.msg
  | .err none => lit "<nil>"

/-- Text written by `fmt.Println(args...)`: the operands separated by one space, then a
newline. -/
def sprintln (args : List Value) : GoString :=
  Join (args.map Value.format) [32] ++ [10]

/-- Observable effects of a demonstration function. -/
inductive Event where
  | println (args : List Value)
  | write (text : GoString)
  | openFile (name : GoString)
  | read (bufLen : Nat)
  | close
  | panic
deriving DecidableEq, Repr

/-- Console text produced by one effect. -/
def Event.text : Event → GoString
  | .println args => sprintln args
  | .write text => text
  | _ => []

/-- Console text produced by a sequence of effects. -/
def stdout (t : List Event) : GoString :=
  t.flatMap Event.text

/-- A demonstration function: a computation that appends to the effect log. -/
abbrev Go := StateM (List Event)

/-- Record one effect. -/
def emit (e : Event) : Go Unit :=
  modify fun log => log ++ [e]

/-- Effect of `fmt.Println(args...)`. -/
def Println (args : List Value) : Go Unit :=
  emit (.println args)

/-- The effects of running a demonstration function from an empty log. -/
def trace (f : Go Unit) : List Event :=
  (f.run []).2

/-! ## `operateurs` and `main` (cheatsheet.go) -/

/-- Embedding of `operateurs()`. -/
def operateurs : Go Unit := do
  let age : Int := 42
  let age2 : Int := 42
  let age3 := wrapInt (age + age2)
  let _ := age3
  Println [.bool (stringLess (lit "a") (lit "b"))]
  Println [.bool (stringLess (lit "a") (lit "B"))]
  Println [.bool (stringLess (lit "coucou") (lit "c"))]
  Println [.bool (stringLess (lit "coucou") (lit "coucou"))]
  Println [.bool (stringLess (lit "coucou") (lit "coucouuuuu"))]
  Println [.str (concat (concat (lit "coucou") (lit " ")) (lit "toi"))]

/-- Embedding of `main()`: it calls `operateurs()` and nothing else. -/
def main : Go Unit := do
  operateurs

/-! ## Functions (cheatsheet.go) -/

/-- Embedding of `division(a, b int) (int, int)`: `a / b` and `a % b` are Go's
truncated quotient and remainder, evaluated in 64-bit arithmetic; a zero divisor
makes the integer division panic (`none`). -/
def division (a b : Int) : Option (Int × Int) :=
  if b = 0 then none else some (wrapInt (a.tdiv b), wrapInt (a.tmod b))

/-- Embedding of `testDivision()`. -/
def testDivision : Go Unit := do
  match division 42 5 with
  | some (quotient, reste) => Println [.int quotient, .int reste]
  | none => emit .panic

/-! ## Bytes and runes (cheatsheet.go) -/

/-- Conversion `rune(b)` of a `byte`. -/
def runeOfByte (b : Nat) : Int :=
  wrapRune (b : Int)

/-- Conversion `byte(r)` of a `rune`: truncation to the low 8 bits. -/
def byteOfRune (r : Int) : Nat :=
  (r % 256).toNat

/-- Conversion `string(b)` of a `byte`: the UTF-8 text of that code point. -/
def stringOfByte (b : Nat) : GoString :=
  encodeRune b

/-- Conversion `string(r)` of a `rune`: the UTF-8 text of that code point, U+FFFD for
a value that is no code point. -/
def stringOfRune (r : Int) : GoString :=
  if 0 ≤ r then encodeRune r.toNat else [0xEF, 0xBF, 0xBD]

/-- Indexing `s[i]`: the byte at position `i`, `none` (a run-time panic) out of range. -/
def index (s : GoString) (i : Nat) : Option Nat :=
  s.get? i

/-- Embedding of `exempleByteEtRune()`. -/
def exempleByteEtRune : Go Unit := do
  let b : Nat := 97
  Println [.byte b]
  let r : Int := 97
  Println [.rune r]
  let b2 : Nat := 97
  let r2 : Int := runeOfByte b2
  Println [.rune r2]
  let r3 : Int := 97
  let b3 : Nat := byteOfRune r3
  Println [.byte b3]
  let b4 : Nat := 97
  let r4 : Int := 97
  let s : GoString := stringOfByte b4
  Println [.str s]
  let s2 : GoString := stringOfRune r4
  Println [.str s2]
  let s3 : GoString := lit "Hello"
  match index s3 0 with
  | none => emit .panic
  | some c =>
    Println [.byte c]
    emit (.write (lit "uint8\n"))
    Println [.str (stringOfByte c)]

/-! ## `strings` (cheatsheet.go, lines 402-403) -/

/-- Prefix test, as `strings.HasPrefix(s, p)`. -/
def hasPrefix : GoString → GoString → Bool
  | _, [] => true
  | [], _ :: _ => false
  | c :: s, d :: p => c = d && hasPrefix s p

/-- Position of the first occurrence of `sep` in `s` counted from offset `i`, as
`strings.Index`; `none` when there is none. -/
def indexFrom (sep : GoString) : GoString → Nat → Option Nat
  | [], i => if sep = [] then some i else none
  | c :: s, i => if hasPrefix (c :: s) sep then some i else indexFrom sep s (i + 1)

/-- The loop of the standard library's `genSplit` for a non-empty separator: cut at the
first occurrence of `sep`, continue after it; the remainder is the last element. -/
def genSplit (sep : GoString) : Nat → GoString → List GoString
  | 0, s => [s]
  | fuel + 1, s =>
    match indexFrom sep s 0 with
    | none => [s]
    | some m => s.take m :: genSplit sep fuel (s.drop (m + sep.length))

/-- Embedding of `strings.Split(s, sep)` for a non-empty separator.  The empty
separator (explosion into UTF-8 sequences) is outside the model: `none`. -/
def Split (s sep : GoString) : Option (List GoString) :=
  if sep = [] then none else some (genSplit sep s.length s)

/-- The two `strings.Split` / `strings.Join` lines of `packageStringsEtStrconv()`. -/
def packageStringsSplitJoin : Go Unit := do
  match Split (lit "coucou") (lit "o") with
  | some parts => Println [.strs parts]
  | none => emit .panic
  Println [.str (Join [lit "c", lit "c", lit "oucou"] (lit "-"))]

/-! ## `os` (cheatsheet.go) -/

/-- What the operating system answers to the calls made by `packageOs()`. -/
structure OsEnv where
  /-- result of `os.Getenv("PATH")` -/
  path : GoString
  /-- result of `os.Getpid()` -/
  pid : Int
  /-- result of `os.Getppid()` -/
  ppid : Int
  /-- first result of `os.Getwd()` -/
  wd : GoString
  /-- second result of `os.Getwd()` -/
  wdErr : Option GoError
  /-- error result of `os.OpenFile` (`none` is `nil`) -/
  openErr : Option GoError
  /-- bytes that the opened file delivers to `Read` -/
  readData : List Nat
  /-- error result of `file.Read` (`none` is `nil`) -/
  readErr : Option GoError
deriving Repr

/-- The slice `make([]byte, n)`: `n` zero bytes. -/
def makeBytes (n : Nat) : List Nat :=
  List.replicate n 0

/-- Effect of `file.Read(data)` on the buffer: at most `len(data)` bytes are stored at
its start, the rest of the buffer is untouched.  Returns the new buffer and the count. -/
def readInto (data : List Nat) (delivered : List Nat) : List Nat × Nat :=
  let got := delivered.take data.length
  (got ++ data.drop got.length, got.length)

/-- Embedding of `packageOs()`.  The deferred `file.Close()` runs at every return that
follows its registration. -/
def packageOs (os : OsEnv) : Go Unit := do
  Println [.str os.path]
  Println [.int os.pid]
  Println [.int os.ppid]
  Println [.str os.wd, .err os.wdErr]
  emit (.openFile (lit "fichier.txt"))
  let err := os.openErr
  if err.isSome then
    Println [.err err]
    return
  let data := makeBytes 100
  emit (.read data.length)
  let (data, nb) := readInto data os.readData
  let err := os.readErr
  if err.isSome then
    Println [.err err]
    emit .close
    return
  Println [.int nb]
  Println [.str data]
  emit .close

/-- The four `fmt.Println` calls of `packageOs()` that precede the file operations. -/
def packageOsPrelude (os : OsEnv) : List Event :=
  [ .println [.str os.path], .println [.int os.pid], .println [.int os.ppid],
    .println [.str os.wd, .err os.wdErr] ]

/-- An environment in which `fichier.txt` opens and holds the two bytes "hi". -/
def twoByteFile : OsEnv :=
  { path := lit "/usr/bin", pid := 4242, ppid := 1, wd := lit "/tmp", wdErr := none,
    openErr := none, readData := lit "hi", readErr := none }

end Algo

/-! ## Package `types` (types.go) -/

namespace Algo.Types

open Algo

/-- Go type `MyInt`, an `int`. -/
abbrev MyInt := Int

/-- Go struct `Person`. -/
structure Person where
  FirstName : GoString
  LastName : GoString
  Age : Int
deriving DecidableEq, Repr

/-- Go type `Color`, an `int`. -/
abbrev Color := Int

/-- Constant `RED`, `iota` = 0. -/
def RED : Color := 0

/-- Constant `GREEN`, `iota` = 1. -/
def GREEN : Color := 1

/-- Constant `BLUE`, `iota` = 2. -/
def BLUE : Color := 2

/-- Embedding of `(c Color) String()`. -/
def Color.String (c : Color) : GoString :=
  if c = RED then lit "red"
  else if c = GREEN then lit "green"
  else if c = BLUE then lit "blue"
  else lit "unknown"

/-- Embedding of `(i MyInt) IsPair()`: `%` is Go's truncated remainder. -/
def MyInt.IsPair (i : MyInt) : Bool :=
  decide (wrapInt (i.tmod 2) = 0)

/-- Embedding of `(p Person) IsMajeur()`. -/
def Person.IsMajeur (p : Person) : Bool :=
  decide (p.Age ≥ 18)

/-- Scanner of `fmt.Sprintf` for string operands.  `pct` tells that the previous byte
was `%`.  Verbs `%s` and `%v` copy the next operand and `%%` is a percent sign;
every other directive, a missing operand or a left-over operand is outside the model
(`none`). -/
def sprintfAux : Bool → GoString → List GoString → Option GoString
  | false, [], [] => some []
  | false, [], _ :: _ => none
  | true, [], _ => none
  | false, c :: fmt, args =>
    if c = 37 then sprintfAux true fmt args
    else (sprintfAux false fmt args).map fun out => c :: out
  | true, c :: fmt, args =>
    if c = 37 then (sprintfAux false fmt args).map fun out => 37 :: out
    else if c = 115 ∨ c = 118 then
      match args with
      | [] => none
      | a :: rest => (sprintfAux false fmt rest).map fun out => a ++ out
    else none

/-- Embedding of `fmt.Sprintf(format, args...)` on string operands; the empty string
stands for a format outside the model. -/
def Sprintf (format : GoString) (args : List GoString) : GoString :=
  (sprintfAux false format args).getD []

/-- Embedding of `(p Person) SayHello()`. -/
def Person.SayHello (p : Person) : GoString :=
  Sprintf (lit "Hello, my name is %s %s") [p.FirstName, p.LastName]

/-- Embedding of `(p Person) Eat(food)`. -/
def Person.Eat (_p : Person) (food : GoString) : GoString :=
  Sprintf (lit "I eat %s") [food]

/-- Embedding of `(p Person) IsDie()`. -/
def Person.IsDie (p : Person) : Bool :=
  decide (p.Age > 100)

/-- Embedding of `test()`. -/
def test : Go Unit := do
  let a : MyInt := 10
  Println [.bool (MyInt.IsPair a)]
  let b : Person := { FirstName := [], LastName := [], Age := 20 }
  Println [.bool b.IsMajeur]

/-- Embedding of `testInterface()`. -/
def testInterface : Go Unit := do
  let unMecBien : Person :=
    { FirstName := lit "Charles", LastName := lit "Darwin", Age := 148 }
  Println [.str unMecBien.SayHello]
  Println [.str (unMecBien.Eat (lit "a banana"))]
  Println [.bool unMecBien.IsDie]

end Algo.Types

/-! ## Auxiliary facts -/

namespace Algo

theorem stringLess_iff_lex (s t : GoString) :
    stringLess s t = true ↔ List.Lex (fun x y : Nat => x < y) s t := by
  induction s generalizing t with
  | nil =>
    cases t with
    | nil => simp [stringLess]
    | cons b bs => simp [stringLess, List.Lex.nil]
  | cons a as ih =>
    cases t with
    | nil => simp [stringLess]
    | cons b bs =>
      simp only [stringLess]
      constructor
      · intro h
        by_cases hab : a < b
        · exact List.Lex.rel hab
        · by_cases hba : b < a
          · simp [hab, hba] at h
          · simp only [hab, hba, if_false] at h
            have hEq : a = b := by omega
            subst hEq
            exact List.Lex.cons ((ih bs).1 h)
      · intro h
        cases h with
        | rel hab => simp [hab]
        | cons h => simp [(ih _).2 h]

theorem natAbs_tmod_eq (a b : Int) : (a.tmod b).natAbs = a.natAbs % b.natAbs := by
  cases a <;> cases b <;> simp [Int.tmod, Int.natAbs_neg] <;> rfl

theorem wrapInt_of_isInt {a : Int} (h : isInt a) : wrapInt a = a := by
  unfold isInt at h
  unfold wrapInt
  omega

theorem tmod_two_cases (i : Int) : i.tmod 2 = 0 ∨ i.tmod 2 = 1 ∨ i.tmod 2 = -1 := by
  have h := natAbs_tmod_eq i 2
  have h2 : i.natAbs % (2 : Int).natAbs < 2 := Nat.mod_lt _ (by decide)
  omega

theorem neg_tmod_eq (a b : Int) : (-a).tmod b = -(a.tmod b) := by
  rw [Int.tmod_def, Int.tmod_def, Int.neg_tdiv]
  ring

theorem tmod_nonpos_of_nonpos (a b : Int) (h : a ≤ 0) : a.tmod b ≤ 0 := by
  have h1 : 0 ≤ (-a).tmod b := Int.tmod_nonneg b (by omega)
  rw [neg_tmod_eq] at h1
  omega

theorem natAbs_tmod_lt (a b : Int) (hb : b ≠ 0) : (a.tmod b).natAbs < b.natAbs := by
  rw [natAbs_tmod_eq]
  exact Nat.mod_lt _ (Int.natAbs_pos.2 hb)

theorem tmod_sign (a b : Int) : a.tmod b = 0 ∨ Int.sign (a.tmod b) = Int.sign a := by
  rcases lt_trichotomy a 0 with ha | ha | ha
  · have h := tmod_nonpos_of_nonpos a b (Int.le_of_lt ha)
    rcases lt_or_eq_of_le h with h | h
    · right
      rw [Int.sign_eq_neg_one_of_neg h, Int.sign_eq_neg_one_of_neg ha]
    · exact Or.inl h
  · left
    subst ha
    simp
  · have h : 0 ≤ a.tmod b := Int.tmod_nonneg b (Int.le_of_lt ha)
    rcases lt_or_eq_of_le h with h | h
    · right
      rw [Int.sign_eq_one_of_pos h, Int.sign_eq_one_of_pos ha]
    · exact Or.inl h.symm

theorem isInt_tdiv (a b : Int) (ha : isInt a) (hb0 : b ≠ 0)
    (hov : ¬ (a = -9223372036854775808 ∧ b = -1)) : isInt (a.tdiv b) := by
  unfold isInt at *
  by_cases h1 : b = 1
  · subst h1
    simpa using ha
  by_cases h2 : b = -1
  · subst h2
    have : a.tdiv (-1) = -a := by
      rw [Int.tdiv_neg, Int.tdiv_one]
    rw [this]
    have hne : a ≠ -9223372036854775808 := fun h => hov ⟨h, rfl⟩
    omega
  have hb2 : 2 ≤ b.natAbs := by omega
  have hq : (a.tdiv b).natAbs = a.natAbs / b.natAbs := Int.natAbs_tdiv a b
  have hle : a.natAbs / b.natAbs ≤ a.natAbs / 2 :=
    Nat.div_le_div_left hb2 (by decide)
  omega

theorem hasPrefix_split (s p : GoString) (h : hasPrefix s p = true) :
    s = p ++ s.drop p.length := by
  induction s generalizing p with
  | nil =>
    cases p with
    | nil => rfl
    | cons d p => simp [hasPrefix] at h
  | cons c s ih =>
    cases p with
    | nil => rfl
    | cons d p =>
      simp only [hasPrefix, Bool.and_eq_true, decide_eq_true_eq] at h
      obtain ⟨hcd, hp⟩ := h
      subst hcd
      simp only [List.cons_append, List.length_cons, List.drop_succ_cons]
      rw [← ih p hp]

theorem indexFrom_split (sep s : GoString) (i m : Nat) (h : indexFrom sep s i = some m) :
    i ≤ m ∧ s = s.take (m - i) ++ sep ++ s.drop (m - i + sep.length) := by
  induction s generalizing i with
  | nil =>
    simp only [indexFrom] at h
    split at h
    · rename_i hsep
      simp only [Option.some.injEq] at h
      subst h
      subst hsep
      simp
    · exact absurd h (by simp)
  | cons c s ih =>
    simp only [indexFrom] at h
    split at h
    · rename_i hpre
      simp only [Option.some.injEq] at h
      subst h
      refine ⟨Nat.le_refl _, ?_⟩
      simpa using hasPrefix_split (c :: s) sep hpre
    · obtain ⟨hle, hs⟩ := ih (i + 1) h
      refine ⟨by omega, ?_⟩
      have hm : m - i = (m - (i + 1)) + 1 := by omega
      rw [hm, Nat.add_right_comm, List.take_succ_cons, List.drop_succ_cons]
      simp only [List.cons_append]
      rw [← hs]

theorem genSplit_ne_nil (sep : GoString) (fuel : Nat) (s : GoString) :
    ∃ y ys, genSplit sep fuel s = y :: ys := by
  cases fuel with
  | zero => exact ⟨s, [], rfl⟩
  | succ fuel =>
    simp only [genSplit]
    split
    · exact ⟨s, [], rfl⟩
    · exact ⟨_, _, rfl⟩

theorem join_genSplit (sep : GoString) (fuel : Nat) (s : GoString) :
    Join (genSplit sep fuel s) sep = s := by
  induction fuel generalizing s with
  | zero => simp [genSplit, Join]
  | succ fuel ih =>
    simp only [genSplit]
    split
    · simp [Join]
    · rename_i m hm
      obtain ⟨y, ys, hy⟩ := genSplit_ne_nil sep fuel (s.drop (m + sep.length))
      have hj := ih (s.drop (m + sep.length))
      rw [hy] at hj ⊢
      simp only [Join]
      rw [hj]
      have := (indexFrom_split sep s 0 m hm).2
      simpa using this.symm

/-- Joining the result of `strings.Split(s, sep)` with `sep` gives back `s`. -/
theorem join_split (s sep : GoString) (parts : List GoString)
    (h : Split s sep = some parts) : Join parts sep = s := by
  unfold Split at h
  split at h
  · exact absurd h (by simp)
  · simp only [Option.some.injEq] at h
    subst h
    exact join_genSplit sep s.length s

end Algo

namespace Algo.Types

theorem lit_hello_format :
    lit "Hello, my name is %s %s" =
      lit "Hello, my name is " ++ [37, 115] ++ lit " " ++ [37, 115] := by
  decide

theorem lit_eat_format : lit "I eat %s" = lit "I eat " ++ [37, 115] := by
  decide

theorem sprintfAux_plain (pre : GoString) (h : ∀ c ∈ pre, c ≠ 37) (fmt : GoString)
    (args : List GoString) :
    sprintfAux false (pre ++ fmt) args =
      (sprintfAux false fmt args).map fun out => pre ++ out := by
  induction pre with
  | nil => simp
  | cons c pre ih =>
    have hc : c ≠ 37 := h c (by simp)
    have hpre : ∀ d ∈ pre, d ≠ 37 := fun d hd => h d (by simp [hd])
    simp [sprintfAux, hc, ih hpre, Option.map_map, Function.comp_def]

theorem sprintfAux_verb_s (fmt : GoString) (a : GoString) (args : List GoString) :
    sprintfAux false (37 :: 115 :: fmt) (a :: args) =
      (sprintfAux false fmt args).map fun out => a ++ out := by
  simp [sprintfAux]

end Algo.Types

/-! ## Claims -/

open Algo Algo.Types

/-- C1: `main` performs exactly the effects of `operateurs`, namely six `fmt.Println`
calls whose console text is the six documented lines `true`, `false`, `false`,
`false`, `true`, `coucou toi`, in this order; the string comparison used is the
lexicographic order on byte sequences. -/
theorem main_prints_operateurs :
    trace Algo.main = trace operateurs ∧
    trace Algo.main =
      [ .println [.bool true], .println [.bool false], .println [.bool false],
        .println [.bool false], .println [.bool true],
        .println [.str (lit "coucou toi")] ] ∧
    stdout (trace Algo.main) = lit "true\nfalse\nfalse\nfalse\ntrue\ncoucou toi\n" ∧
    (∀ s t : GoString, stringLess s t = true ↔ List.Lex (fun x y : Nat => x < y) s t) := by
  refine ⟨rfl, by decide, by decide, stringLess_iff_lex⟩

/-- C2: `RED`, `GREEN`, `BLUE` are 0, 1, 2; `String()` returns "red", "green", "blue" on
them and "unknown" on every other integer, negatives included; hence it is injective on
the three named colours and returns "unknown" exactly off them. -/
theorem color_string_spec :
    (RED = 0 ∧ GREEN = 1 ∧ BLUE = 2) ∧
    (Color.String RED = lit "red" ∧ Color.String GREEN = lit "green" ∧
      Color.String BLUE = lit "blue") ∧
    (∀ c : Color, c ≠ RED → c ≠ GREEN → c ≠ BLUE → Color.String c = lit "unknown") ∧
    (∀ c : Color, c < 0 → Color.String c = lit "unknown") ∧
    (∀ c : Color, Color.String c = lit "unknown" ↔ (c ≠ RED ∧ c ≠ GREEN ∧ c ≠ BLUE)) ∧
    (∀ c d : Color, (c = RED ∨ c = GREEN ∨ c = BLUE) → (d = RED ∨ d = GREEN ∨ d = BLUE) →
      Color.String c = Color.String d → c = d) := by
  have hr : Color.String RED = lit "red" := by decide
  have hg : Color.String GREEN = lit "green" := by decide
  have hb : Color.String BLUE = lit "blue" := by decide
  have hu : ∀ c : Color, c ≠ RED → c ≠ GREEN → c ≠ BLUE → Color.String c = lit "unknown" := by
    intro c h0 h1 h2
    simp [Color.String, h0, h1, h2]
  refine ⟨⟨rfl, rfl, rfl⟩, ⟨hr, hg, hb⟩, hu, ?_, ?_, ?_⟩
  · intro c hc
    apply hu <;> (intro h; rw [h] at hc; revert hc; decide)
  · intro c
    constructor
    · intro h
      refine ⟨?_, ?_, ?_⟩ <;> intro hc <;> subst hc
      · rw [hr] at h; exact absurd h (by decide)
      · rw [hg] at h; exact absurd h (by decide)
      · rw [hb] at h; exact absurd h (by decide)
    · rintro ⟨h0, h1, h2⟩
      exact hu c h0 h1 h2
  · intro c d hc hd h
    rcases hc with rfl | rfl | rfl <;> rcases hd with rfl | rfl | rfl <;>
      first
        | rfl
        | (simp only [hr, hg, hb] at h; exact absurd h (by decide))

/-- C3: for all `int`s `a` and `b` with `b != 0`, `division(a, b)` returns the truncated
quotient and remainder `(q, r)` without panicking; `a = q*b + r` in 64-bit wraparound
arithmetic (exactly, unless `a` is the least `int` and `b` is -1), `|r| < |b|`, and `r` is
zero or has the sign of `a`.  `division(42, 5)` is `(8, 2)`. -/
theorem division_spec (a b : Int) (ha : isInt a) (hb : isInt b) (hb0 : b ≠ 0) :
    division 42 5 = some (8, 2) ∧
    ∃ q r : Int, division a b = some (q, r) ∧
      q = wrapInt (a.tdiv b) ∧ r = a.tmod b ∧
      isInt q ∧ isInt r ∧
      wrapInt (q * b + r) = a ∧
      |r| < |b| ∧
      (r = 0 ∨ Int.sign r = Int.sign a) ∧
      (¬ (a = -9223372036854775808 ∧ b = -1) → q = a.tdiv b ∧ q * b + r = a) := by
  refine ⟨by decide, ?_⟩
  have hrlt := natAbs_tmod_lt a b hb0
  have hrInt : isInt (a.tmod b) := by
    unfold isInt at *
    omega
  have hr : wrapInt (a.tmod b) = a.tmod b := wrapInt_of_isInt hrInt
  refine ⟨wrapInt (a.tdiv b), a.tmod b, ?_, rfl, rfl, ?_, hrInt, ?_, ?_, tmod_sign a b, ?_⟩
  · simp [division, hb0, hr]
  · unfold isInt wrapInt
    omega
  · by_cases hov : a = -9223372036854775808 ∧ b = -1
    · obtain ⟨rfl, rfl⟩ := hov
      decide
    · rw [wrapInt_of_isInt (isInt_tdiv a b ha hb0 hov), Int.tdiv_add_tmod' a b]
      exact wrapInt_of_isInt ha
  · rw [Int.abs_eq_natAbs, Int.abs_eq_natAbs]
    exact_mod_cast hrlt
  · intro hov
    rw [wrapInt_of_isInt (isInt_tdiv a b ha hb0 hov)]
    exact ⟨rfl, Int.tdiv_add_tmod' a b⟩

/-- Instance of C3 at the overflowing quotient: the least `int` divided by -1. -/
theorem division_spec_witness :
    isInt (-9223372036854775808) ∧ isInt (-1) ∧ (-1 : Int) ≠ 0 ∧
    division (-9223372036854775808) (-1) = some (-9223372036854775808, 0) ∧
    ∃ q r : Int, division (-9223372036854775808) (-1) = some (q, r) ∧
      q = wrapInt ((-9223372036854775808 : Int).tdiv (-1)) ∧
      r = (-9223372036854775808 : Int).tmod (-1) ∧
      isInt q ∧ isInt r ∧
      wrapInt (q * (-1) + r) = -9223372036854775808 ∧
      |r| < |(-1 : Int)| ∧
      (r = 0 ∨ Int.sign r = Int.sign (-9223372036854775808)) ∧
      (¬ ((-9223372036854775808 : Int) = -9223372036854775808 ∧ (-1 : Int) = -1) →
        q = (-9223372036854775808 : Int).tdiv (-1) ∧ q * (-1) + r = -9223372036854775808) :=
  ⟨by decide, by decide, by decide, by decide,
    (division_spec (-9223372036854775808) (-1) (by decide) (by decide) (by decide)).2⟩

/-- C4: for every `MyInt` `i`, positive, zero or negative, `i.IsPair()` is true exactly
when `i` is even, although the truncated remainder of a negative odd value is -1;
`MyInt(10).IsPair()` is true. -/
theorem isPair_iff_even :
    (∀ i : MyInt, MyInt.IsPair i = true ↔ Even i) ∧
    (∀ i : MyInt, i < 0 → ¬ Even i → Int.tmod i 2 = -1) ∧
    MyInt.IsPair 10 = true ∧ MyInt.IsPair (-3) = false := by
  have key : ∀ i : Int, i.tmod 2 = 0 ↔ Even i := by
    intro i
    rw [even_iff_two_dvd]
    exact ⟨Int.dvd_of_tmod_eq_zero, Int.tmod_eq_zero_of_dvd⟩
  refine ⟨?_, ?_, by decide, by decide⟩
  · intro i
    rw [← key i]
    unfold MyInt.IsPair wrapInt
    rcases tmod_two_cases i with h | h | h <;> simp [h]
  · intro i hneg hodd
    rw [← key i] at hodd
    have hle := tmod_nonpos_of_nonpos i 2 (Int.le_of_lt hneg)
    rcases tmod_two_cases i with h | h | h
    · exact absurd h hodd
    · omega
    · exact h

/-- C5: for every `Person` `p` and string `food`, `p.SayHello()` is
"Hello, my name is " followed by the first name, a space and the last name;
`p.Eat(food)` is "I eat " followed by `food`, whatever the fields of `p`;
`p.IsDie()` is true exactly when `p.Age > 100`.  For Charles Darwin, aged 148, eating
"a banana", the three results are "Hello, my name is Charles Darwin",
"I eat a banana" and true. -/
theorem person_animal_spec :
    (∀ p : Person,
      p.SayHello = lit "Hello, my name is " ++ p.FirstName ++ lit " " ++ p.LastName) ∧
    (∀ (p : Person) (food : GoString), p.Eat food = lit "I eat " ++ food) ∧
    (∀ (p q : Person) (food : GoString), p.Eat food = q.Eat food) ∧
    (∀ p : Person, p.IsDie = true ↔ p.Age > 100) ∧
    Person.SayHello ⟨lit "Charles", lit "Darwin", 148⟩ =
      lit "Hello, my name is Charles Darwin" ∧
    Person.Eat ⟨lit "Charles", lit "Darwin", 148⟩ (lit "a banana") = lit "I eat a banana" ∧
    Person.IsDie ⟨lit "Charles", lit "Darwin", 148⟩ = true ∧
    trace testInterface =
      [ .println [.str (lit "Hello, my name is Charles Darwin")],
        .println [.str (lit "I eat a banana")],
        .println [.bool true] ] := by
  have hEat : ∀ (p : Person) (food : GoString), p.Eat food = lit "I eat " ++ food := by
    intro p food
    unfold Person.Eat Sprintf
    rw [lit_eat_format, sprintfAux_plain _ (by decide), sprintfAux_verb_s]
    simp [sprintfAux]
  refine ⟨?_, hEat, ?_, ?_, by decide, by decide, by decide, by decide⟩
  · intro p
    unfold Person.SayHello Sprintf
    rw [lit_hello_format]
    simp only [List.append_assoc]
    rw [sprintfAux_plain _ (by decide)]
    simp only [List.cons_append, List.nil_append]
    rw [sprintfAux_verb_s, sprintfAux_plain _ (by decide), sprintfAux_verb_s]
    simp [sprintfAux]
  · intro p q food
    rw [hEat p, hEat q]
  · intro p
    simp [Person.IsDie]

/-- C6: in `packageOs`, whatever the operating system answers: if the open returns an
error, the function prints it and returns with no read attempted, no byte count and no
data printed; if the open succeeds and the read returns an error, the function prints
that error and returns (closing the file) with no byte count and no data printed; the
byte count and the data are printed exactly when both errors are nil. -/
theorem packageOs_error_paths (os : OsEnv) :
    (∀ e, os.openErr = some e →
      trace (packageOs os) =
        packageOsPrelude os ++ [.openFile (lit "fichier.txt"), .println [.err (some e)]]) ∧
    (∀ e, os.openErr = none → os.readErr = some e →
      trace (packageOs os) =
        packageOsPrelude os ++
          [.openFile (lit "fichier.txt"), .read 100, .println [.err (some e)], .close]) ∧
    (os.openErr = none → os.readErr = none →
      trace (packageOs os) =
        packageOsPrelude os ++
          [ .openFile (lit "fichier.txt"), .read 100,
            .println [.int (readInto (makeBytes 100) os.readData).2],
            .println [.str (readInto (makeBytes 100) os.readData).1], .close ]) ∧
    (os.openErr ≠ none → ∀ n, Event.read n ∉ trace (packageOs os)) ∧
    ((∃ n, Event.println [.int n] ∈ (trace (packageOs os)).drop 4) ↔
      (os.openErr = none ∧ os.readErr = none)) ∧
    ((∃ d, Event.println [.str d] ∈ (trace (packageOs os)).drop 4) ↔
      (os.openErr = none ∧ os.readErr = none)) := by
  obtain ⟨path, pid, ppid, wd, wdErr, openErr, readData, readErr⟩ := os
  cases openErr with
  | some e0 =>
    have ht : trace (packageOs ⟨path, pid, ppid, wd, wdErr, some e0, readData, readErr⟩) =
        packageOsPrelude ⟨path, pid, ppid, wd, wdErr, some e0, readData, readErr⟩ ++
          [.openFile (lit "fichier.txt"), .println [.err (some e0)]] := rfl
    rw [ht]
    simp [packageOsPrelude]
  | none =>
    cases readErr with
    | some e1 =>
      have ht : trace (packageOs ⟨path, pid, ppid, wd, wdErr, none, readData, some e1⟩) =
          packageOsPrelude ⟨path, pid, ppid, wd, wdErr, none, readData, some e1⟩ ++
            [.openFile (lit "fichier.txt"), .read 100, .println [.err (some e1)], .close] :=
        rfl
      rw [ht]
      simp [packageOsPrelude]
    | none =>
      have ht : trace (packageOs ⟨path, pid, ppid, wd, wdErr, none, readData, none⟩) =
          packageOsPrelude ⟨path, pid, ppid, wd, wdErr, none, readData, none⟩ ++
            [ .openFile (lit "fichier.txt"), .read 100,
              .println [.int (readInto (makeBytes 100) readData).2],
              .println [.str (readInto (makeBytes 100) readData).1], .close ] := rfl
      rw [ht]
      simp [packageOsPrelude]

/-- Instance of C6 on a file that opens and holds two bytes. -/
theorem packageOs_error_paths_witness :
    twoByteFile.openErr = none ∧ twoByteFile.readErr = none ∧
    trace (packageOs twoByteFile) =
      packageOsPrelude twoByteFile ++
        [ .openFile (lit "fichier.txt"), .read 100,
          .println [.int (readInto (makeBytes 100) twoByteFile.readData).2],
          .println [.str (readInto (makeBytes 100) twoByteFile.readData).1], .close ] :=
  ⟨rfl, rfl, (packageOs_error_paths twoByteFile).2.2.1 rfl rfl⟩

/-- C7: evaluation of the two documented lines.  `strings.Split("coucou", "o")` is
`["c", "uc", "u"]`, printed `[c uc u]`, and not the `["c", "c", "oucou"]` of the source
comment; joining "c", "c", "oucou" with "-" does give "c-c-oucou". -/
theorem split_coucou_eval :
    Split (lit "coucou") (lit "o") = some [lit "c", lit "uc", lit "u"] ∧
    Split (lit "coucou") (lit "o") ≠ some [lit "c", lit "c", lit "oucou"] ∧
    Join [lit "c", lit "c", lit "oucou"] (lit "-") = lit "c-c-oucou" ∧
    Join [lit "c", lit "c", lit "oucou"] (lit "o") ≠ lit "coucou" ∧
    stdout (trace packageStringsSplitJoin) = lit "[c uc u]\nc-c-oucou\n" := by
  refine ⟨by decide, by decide, by decide, by decide, by decide⟩

/-- C8: evaluation of `packageOs` on a file holding the two bytes "hi".  The read
returns `nb = 2`, the line before the last is 2, and the last line printed is the whole
100-byte buffer, "hi" followed by 98 zero bytes, not the 2 bytes read.  For every
content delivered, the printed buffer has length 100 and starts with the bytes read. -/
theorem packageOs_prints_whole_buffer :
    trace (packageOs twoByteFile) =
      packageOsPrelude twoByteFile ++
        [ .openFile (lit "fichier.txt"), .read 100, .println [.int 2],
          .println [.str (lit "hi" ++ List.replicate 98 0)], .close ] ∧
    (lit "hi" ++ List.replicate 98 0).length = 100 ∧
    lit "hi" ++ List.replicate 98 0 ≠ (lit "hi" ++ List.replicate 98 0).take 2 ∧
    (∀ delivered : List Nat,
      (readInto (makeBytes 100) delivered).1.length = 100 ∧
      (readInto (makeBytes 100) delivered).2 = min delivered.length 100 ∧
      (readInto (makeBytes 100) delivered).1.take (readInto (makeBytes 100) delivered).2 =
        delivered.take 100) := by
  refine ⟨by decide, by decide, by decide, ?_⟩
  intro delivered
  have hlen : (makeBytes 100).length = 100 := by simp [makeBytes]
  have hmin : min 100 delivered.length ≤ 100 := Nat.min_le_left _ _
  refine ⟨?_, ?_, ?_⟩
  · simp only [readInto, hlen, List.length_append, List.length_take, List.length_drop]
    omega
  · simp only [readInto, hlen, List.length_take]
    exact Nat.min_comm _ _
  · simp only [readInto, hlen]
    rw [List.take_left]

/-- C9: for every byte `b`, `rune(b)` lies in 0..255 and `byte(rune(b)) = b`; for every
rune `r`, `byte(r)` is the byte congruent to `r` modulo 256 (its low 8 bits), and
`rune(byte(r)) = r` when `0 <= r <= 255`.  For 'a' both conversions give 97; for
"Hello", `s3[0]` is the byte 72 and `string(s3[0])` is "H". -/
theorem byte_rune_roundtrip (b : Nat) (r : Int) (hb : isByte b) (hr : isRune r) :
    (0 ≤ runeOfByte b ∧ runeOfByte b ≤ 255) ∧
    byteOfRune (runeOfByte b) = b ∧
    (isByte (byteOfRune r) ∧ (256 : Int) ∣ r - (byteOfRune r : Int)) ∧
    (0 ≤ r → r ≤ 255 → runeOfByte (byteOfRune r) = r) ∧
    (runeOfByte 97 = 97 ∧ byteOfRune 97 = 97) ∧
    (index (lit "Hello") 0 = some 72 ∧ stringOfByte 72 = lit "H") ∧
    stdout (trace exempleByteEtRune) = lit "97\n97\n97\n97\na\na\n72\nuint8\nH\n" := by
  unfold isByte at hb
  unfold isRune at hr
  refine ⟨?_, ?_, ⟨?_, ?_⟩, ?_, by decide, by decide, by decide⟩
  · unfold runeOfByte wrapRune
    omega
  · unfold byteOfRune runeOfByte wrapRune
    omega
  · unfold isByte byteOfRune
    omega
  · unfold byteOfRune
    omega
  · intro h0 h255
    unfold byteOfRune runeOfByte wrapRune
    omega

/-- Instance of C9 at the byte 200 and the rune -1, whose low 8 bits are 255. -/
theorem byte_rune_roundtrip_witness :
    isByte 200 ∧ isRune (-1) ∧ byteOfRune (-1) = 255 ∧
    byteOfRune (runeOfByte 200) = 200 :=
  ⟨by decide, by decide, by decide,
    (byte_rune_roundtrip 200 (-1) (by decide) (by decide)).2.1⟩
